import Mathlib

/-!
# Verification of the bottle-feed analysis pipeline (`src/workers/index.js`)

A shallow embedding of the core analysis pipeline of the bottle-tracking
dashboard worker.  Strings of the host language are modelled as `List Char`;
host numbers are modelled as `ℚ` (the pipeline only ever produces finite
decimal values, except for one division whose divisor may in principle be
zero — that division is modelled with an explicit `Option`, `none` standing
for the host's non-finite result).  Fallible code (`throw`) is modelled with
`Except`.
-/

set_option autoImplicit false

namespace BottleTracker

/-! ## Small host-language primitives -/

/-- Whitespace as recognised by the host `trim()` on the characters that can
occur here (space, tab, CR, LF). -/
def isWS (c : Char) : Bool :=
  c = ' ' || c = '\t' || c = '\r' || c = '\n'

/-- Model of the host `String.prototype.trim`: drop leading and trailing
whitespace. -/
def jsTrim (l : List Char) : List Char :=
  ((l.dropWhile isWS).reverse.dropWhile isWS).reverse

/-- Model of `.replace(/^"|"$/g, "")`: remove one leading double quote (if
present) and one trailing double quote (if present).  On the one-character
string `"` only the leading match fires. -/
def stripQuotes (l : List Char) : List Char :=
  let l1 := if l.head? = some '"' then l.tail else l
  if l1.getLast? = some '"' then l1.dropLast else l1

/-- Model of the host `split` with a one-character separator:
`"".split(s) = [""]`, separators at the edges produce empty fields. -/
def splitOnChar (sep : Char) : List Char → List (List Char)
  | [] => [[]]
  | c :: rest =>
    if c = sep then [] :: splitOnChar sep rest
    else
      match splitOnChar sep rest with
      | [] => [[c]]
      | f :: fs => (c :: f) :: fs

/-- Model of `String.prototype.includes`: `needle` occurs as a contiguous
substring of `hay`. -/
def containsSub (needle : List Char) : List Char → Bool
  | [] => needle.isEmpty
  | c :: rest => needle.isPrefixOf (c :: rest) || containsSub needle rest

/-- First contiguous run of decimal digits in `l` (the text matched by the
regular expression `/(\d+)/`, empty if there is no match). -/
def firstDigitRun (l : List Char) : List Char :=
  ((l.dropWhile (fun c => !c.isDigit)).takeWhile (fun c => c.isDigit))

/-- Numeric value of a run of decimal digits. -/
def digitsToNat (l : List Char) : Nat :=
  l.foldl (fun acc c => 10 * acc + (c.toNat - '0'.toNat)) 0

/-- Model of the host `parseInt(s, 10)`: skip leading whitespace, an optional
sign, then read a maximal run of digits; `none` models `NaN` (no digits). -/
def jsParseInt (l : List Char) : Option Int :=
  let l' := l.dropWhile isWS
  let (neg, l'') :=
    match l' with
    | '-' :: rest => (true, rest)
    | '+' :: rest => (false, rest)
    | _ => (false, l')
  let digits := l''.takeWhile (fun c => c.isDigit)
  if digits.isEmpty then none
  else some (if neg then -(digitsToNat digits : Int) else (digitsToNat digits : Int))

/-- The host `x || d` idiom on strings: an absent (`[]` models `undefined`)
or empty string is falsy and replaced by the default. -/
def jsOrDefault (x d : List Char) : List Char :=
  if x.isEmpty then d else x

/-! ## `parseCSVLine` (src/workers/index.js lines 351–371) -/

/-- The raw chunks of a CSV line: the loop of `parseCSVLine`, which walks the
line toggling an in-quotes flag on `"` and breaks a field exactly at each
`,` seen outside quotes.  Quote characters stay inside the chunk (the source
pushes the raw `substring` between separators). -/
def csvChunksAux (inQ : Bool) (acc : List Char) : List Char → List (List Char)
  | [] => [acc.reverse]
  | c :: rest =>
    if c = '"' then csvChunksAux (!inQ) (c :: acc) rest
    else if c = ',' && !inQ then acc.reverse :: csvChunksAux false [] rest
    else csvChunksAux inQ (c :: acc) rest

/-- `parseCSVLine`: empty/blank lines give `[]`; otherwise each chunk is
pushed as `chunk.replace(/^"|"$/g, "").trim()`. -/
def parseCSVLine (line : List Char) : List (List Char) :=
  if (jsTrim line).isEmpty then []
  else (csvChunksAux false [] line).map (fun f => jsTrim (stripQuotes f))

/-! ## The data model (§3 of the spec, built in `analyzeBottleFeeds`) -/

structure Event where
  date : List Char
  time : List Char
  /-- `parseInt` of the text before the first `:` of the time; `none` models
  `NaN` (the source never range-checks this value). -/
  hour : Option Int
  amount : Nat
  deriving Repr, DecidableEq

structure DailyStat where
  date : List Char
  feedCount : Nat
  totalAmount : Nat
  averageAmount : ℚ
  deriving Repr, DecidableEq

structure TrendPoint where
  recentAverage : ℚ
  olderAverage : ℚ
  /-- `none` models the non-finite value the host produces when the divisor
  `olderAvg` is zero. -/
  percentChange : Option ℚ
  deriving Repr, DecidableEq

structure TimeSlotStat where
  /-- The slot label; the source reuses the field name `hour` for it. -/
  hour : String
  count : Nat
  totalAmount : Nat
  percentage : ℚ
  averageAmount : ℚ
  deriving Repr, DecidableEq

structure OverallStats where
  totalBottleFeeds : Nat
  dateStart : List Char
  dateEnd : List Char
  averageDailyFeeds : ℚ
  averageFeedSize : ℚ
  deriving Repr, DecidableEq

structure AnalysisResult where
  overallStats : OverallStats
  recentTrend : Option TrendPoint
  dailyStats : List DailyStat
  allStats : List DailyStat
  timeStats : List TimeSlotStat
  rawFeeds : List Event
  deriving Repr, DecidableEq

structure TrendHistoryEntry where
  date : List Char
  /-- `percentChange` for this day (`none` models a non-finite host value). -/
  value : Option ℚ
  recentAvg : ℚ
  olderAvg : ℚ
  deriving Repr, DecidableEq

instance : Inhabited DailyStat := ⟨⟨[], 0, 0, 0⟩⟩

instance : Inhabited TrendHistoryEntry := ⟨⟨[], none, 0, 0⟩⟩

/-! ## Event extraction (the row loop, lines 404–442) -/

/-- The body of the row loop of `analyzeBottleFeeds` for one line, given the
four required column indices: `none` when the row is skipped. -/
def rowToEvent (ti si li ei : Nat) (line : List Char) : Option Event :=
  if (jsTrim line).isEmpty then none
  else
    let values := parseCSVLine line
    if values.length ≤ max (max ti si) (max li ei) then none
    else
      let loc := values.getD li []
      if !loc.isEmpty && containsSub "Bottle".data loc then
        let dateTime := values.getD si []
        let ec := values.getD ei []
        let amount : Nat :=
          if !ec.isEmpty then
            (if (firstDigitRun ec).isEmpty then 0 else digitsToNat (firstDigitRun ec))
          else 0
        if !dateTime.isEmpty && amount != 0 then
          let dateParts := splitOnChar ' ' dateTime
          let date := dateParts.getD 0 []
          let time := jsOrDefault (dateParts.getD 1 []) "00:00".data
          let hour := jsParseInt ((splitOnChar ':' time).getD 0 [])
          some ⟨date, time, hour, amount⟩
        else none
      else none

/-! ## Date ordering keys (the `new Date(...)` sort comparators) -/

def allDigits (l : List Char) : Bool :=
  !l.isEmpty && l.all (fun c => c.isDigit)

/-- Modelled from the host `Date` parser, restricted to the `YYYY-MM-DD` and
`YYYY-MM-DD HH:MM` shapes this data uses: the result is a key that is
order-isomorphic to the host's epoch milliseconds on those shapes, and
`none` models an invalid date (`NaN`).  The source only ever observes the
relative order of these values (inside sort comparators), never the values
themselves. -/
def jsDateValue (s : List Char) : Option Int :=
  let parts := splitOnChar ' ' s
  if 2 < parts.length then none
  else
    let df := splitOnChar '-' (parts.getD 0 [])
    if df.length = 3 ∧ allDigits (df.getD 0 []) ∧ allDigits (df.getD 1 [])
        ∧ allDigits (df.getD 2 []) then
      let y := digitsToNat (df.getD 0 [])
      let m := digitsToNat (df.getD 1 [])
      let d := digitsToNat (df.getD 2 [])
      if 1 ≤ m ∧ m ≤ 12 ∧ 1 ≤ d ∧ d ≤ 31 then
        let dayKey : Int := ((y * 12 + m) * 32 + d : Nat)
        let tp := parts.getD 1 []
        if tp.isEmpty then some (dayKey * 1440)
        else
          let tf := splitOnChar ':' tp
          if tf.length = 2 ∧ allDigits (tf.getD 0 []) ∧ allDigits (tf.getD 1 []) then
            let hh := digitsToNat (tf.getD 0 [])
            let mm := digitsToNat (tf.getD 1 [])
            if hh ≤ 23 ∧ mm ≤ 59 then some (dayKey * 1440 + hh * 60 + mm) else none
          else none
      else none
    else none

/-- Ordering induced by a `comparefn` of the form `key(a) - key(b)`: per the
host language's sort semantics a `NaN` comparator result is treated as `0`
(the elements compare equal), so an invalid key is `≤` everything. -/
def optKeyLe (a b : Option Int) : Bool :=
  match a, b with
  | some x, some y => decide (x ≤ y)
  | _, _ => true

/-- Comparator key of `bottleFeeds.sort`: `new Date(a.date + " " + a.time)`. -/
def feedLe (a b : Event) : Bool :=
  optKeyLe (jsDateValue (a.date ++ ' ' :: a.time)) (jsDateValue (b.date ++ ' ' :: b.time))

/-- Comparator of `allStats.sort` and of the sort in `calculateDailyTrends`:
`new Date(a.date) - new Date(b.date)`. -/
def statLe (a b : DailyStat) : Bool :=
  optKeyLe (jsDateValue a.date) (jsDateValue b.date)

/-- Insert into a sorted list, after any earlier element it compares equal
to (this is what keeps the sort stable). -/
def insertSorted {α : Type} (le : α → α → Bool) (a : α) : List α → List α
  | [] => [a]
  | b :: l => if le a b then a :: b :: l else b :: insertSorted le a l

/-- Model of the host's `Array.prototype.sort`, which is required to be
stable: a structurally recursive stable insertion sort.  For the consistent
comparators that valid dates produce, every stable sort (the host's
included) returns the same list. -/
def stableSort {α : Type} (le : α → α → Bool) : List α → List α
  | [] => []
  | a :: l => insertSorted le a (stableSort le l)

/-! ## Daily aggregation (lines 452–479) -/

/-- One entry of the `feedsByDate` object (the `feeds` array itself is only
used through its per-date count and total). -/
structure DayAcc where
  date : List Char
  count : Nat
  total : Nat
  deriving Repr, DecidableEq

/-- One iteration of the grouping loop: bump the entry keyed by `e.date`
(object keys are unique, so at most the first match), or append a fresh
entry — object keys of this shape enumerate in insertion order. -/
def bumpFirst (e : Event) : List DayAcc → List DayAcc
  | [] => [⟨e.date, 1, e.amount⟩]
  | g :: gs =>
    if g.date = e.date then ⟨g.date, g.count + 1, g.total + e.amount⟩ :: gs
    else g :: bumpFirst e gs

def groupByDate (feeds : List Event) : List DayAcc :=
  feeds.foldl (fun acc e => bumpFirst e acc) []

/-! ## Rounding and division -/

/-- The host `Math.round`: round half toward positive infinity,
`⌊x + 1/2⌋`. -/
def jsRound (x : ℚ) : Int := Rat.floor (x + 1 / 2)

/-- `Math.round(x * 10) / 10`. -/
def round1 (x : ℚ) : ℚ := (jsRound (x * 10) : ℚ) / 10

/-- Division whose host result is non-finite (and modelled `none`) when the
divisor is zero. -/
def jsDiv (a b : ℚ) : Option ℚ := if b = 0 then none else some (a / b)

/-- `Math.round((recentAvg - olderAvg) / olderAvg * 1000) / 10`, `none` when
the host value is non-finite (zero divisor). -/
def pctChange (recentAvg olderAvg : ℚ) : Option ℚ :=
  (jsDiv (recentAvg - olderAvg) olderAvg).map (fun q => (jsRound (q * 1000) : ℚ) / 10)

def mkDailyStat (g : DayAcc) : DailyStat :=
  ⟨g.date, g.count, g.total, round1 ((g.total : ℚ) / (g.count : ℚ))⟩

def sumAvg (l : List DailyStat) : ℚ := (l.map (fun s => s.averageAmount)).sum

/-! ## Recent trend (lines 485–508) -/

def recentTrendOf (allStats : List DailyStat) : Option TrendPoint :=
  if 14 ≤ allStats.length then
    let recentDays := allStats.drop (allStats.length - 7)
    let olderDays := (allStats.drop (allStats.length - 14)).take 7
    let recentAvg := sumAvg recentDays / (recentDays.length : ℚ)
    let olderAvg := sumAvg olderDays / (olderDays.length : ℚ)
    some ⟨round1 recentAvg, round1 olderAvg, pctChange recentAvg olderAvg⟩
  else none

/-! ## Time-of-day buckets (lines 510–547) -/

/-- The `if / else if / else` chain assigning a feed to a slot.  A `NaN`
hour fails every comparison and lands in the final `else` (slot 3), as does
any out-of-range hour. -/
def slotIndex (h : Option Int) : Fin 4 :=
  match h with
  | none => 3
  | some v =>
    if 0 ≤ v ∧ v < 6 then 0
    else if 6 ≤ v ∧ v < 12 then 1
    else if 12 ≤ v ∧ v < 18 then 2
    else 3

/-- Count and total of slot `k`: the single accumulation loop, restricted to
the feeds the chain sends to slot `k` (the loop touches exactly one slot per
feed, so the four accumulators are independent). -/
def slotCounts (feeds : List Event) (k : Fin 4) : Nat × Nat :=
  feeds.foldl
    (fun p e => if slotIndex e.hour = k then (p.1 + 1, p.2 + e.amount) else p) (0, 0)

def slotLabels : List String := ["12am-6am", "6am-12pm", "12pm-6pm", "6pm-12am"]

/-- One `timeStats` element.  The percentage divisor `bottleFeeds.length` is
nonzero on every path that reaches this code (the empty case has already
aborted the analysis). -/
def mkTimeSlotStat (feeds : List Event) (k : Fin 4) : TimeSlotStat :=
  let c := (slotCounts feeds k).1
  let t := (slotCounts feeds k).2
  { hour := slotLabels.getD k "",
    count := c,
    totalAmount := t,
    percentage := (jsRound ((c : ℚ) / (feeds.length : ℚ) * 1000) : ℚ) / 10,
    averageAmount := if 0 < c then round1 ((t : ℚ) / (c : ℚ)) else 0 }

/-- `Object.keys(timeSlots)` enumerates the four fixed labels in insertion
order. -/
def timeStatsOf (feeds : List Event) : List TimeSlotStat :=
  (List.finRange 4).map (mkTimeSlotStat feeds)

/-! ## The full analysis (lines 376–574) -/

def msgEmpty : String := "CSV data appears to be empty or invalid"

def msgColumns : String := "Required columns not found in CSV data"

def msgNoFeeds : String := "No valid bottle feeds found in the CSV data"

/-- Header tokenisation (lines 383–385): the header row is split **naively**
at every comma (`lines[0].split(",")`, not `parseCSVLine`), then each token
has an edge quote pair stripped and is trimmed. -/
def headersOfLine (l : List Char) : List (List Char) :=
  (splitOnChar ',' l).map (fun h => jsTrim (stripQuotes h))

def requiredIndices (headers : List (List Char)) : Option (Nat × Nat × Nat × Nat) :=
  match headers.findIdx? (· == "Type".data), headers.findIdx? (· == "Start".data),
      headers.findIdx? (· == "Start Location".data),
      headers.findIdx? (· == "End Condition".data) with
  | some ti, some si, some li, some ei => some (ti, si, li, ei)
  | _, _, _, _ => none

/-- Everything after the filtering loop, given the surviving events in file
order (`bottleFeeds.sort` sorts the list in place, so the sorted list is
what every later step — and the returned `rawFeeds` — sees). -/
def buildResult (rawList : List Event) : AnalysisResult :=
  let feeds := stableSort feedLe rawList
  let groups := groupByDate feeds
  let allStats := stableSort statLe (groups.map mkDailyStat)
  let totalAmount := (feeds.map (fun e => e.amount)).sum
  { overallStats :=
      { totalBottleFeeds := feeds.length,
        dateStart := match feeds with | [] => "N/A".data | e :: _ => e.date,
        dateEnd := match feeds.getLast? with | none => "N/A".data | some e => e.date,
        averageDailyFeeds := round1 ((feeds.length : ℚ) / (groups.length : ℚ)),
        averageFeedSize := round1 ((totalAmount : ℚ) / (feeds.length : ℚ)) },
    recentTrend := recentTrendOf allStats,
    dailyStats := allStats.drop (allStats.length - 7),
    allStats := allStats,
    timeStats := timeStatsOf feeds,
    rawFeeds := feeds }

/-- `analyzeBottleFeeds`: the three `throw` statements become the three
`Except.error` cases (an aborted run carries no result at all). -/
def analyzeBottleFeeds (csv : List Char) : Except String AnalysisResult :=
  let lines := splitOnChar '\n' csv
  if lines.length < 2 then .error msgEmpty
  else
    match requiredIndices (headersOfLine (lines.getD 0 [])) with
    | none => .error msgColumns
    | some (ti, si, li, ei) =>
      let bottleFeeds := (lines.drop 1).filterMap (rowToEvent ti si li ei)
      if bottleFeeds.isEmpty then .error msgNoFeeds
      else .ok (buildResult bottleFeeds)

/-! ## `calculateDailyTrends` (lines 579–627) -/

/-- The body of the trend-history loop at index `i` (the source only runs it
for `13 ≤ i < sorted.length`): `slice(i-6, i+1)` as the recent window and
`slice(max 0 (i-13), i-6)` as the older window, with the source's guard that
both windows are nonempty. -/
def trendEntryAt (sorted : List DailyStat) (i : Nat) : Option TrendHistoryEntry :=
  let recentDays := (sorted.drop (i - 6)).take (i + 1 - (i - 6))
  let olderDays := (sorted.drop (i - 13)).take (i - 6 - (i - 13))
  if recentDays.length ≠ 0 ∧ olderDays.length ≠ 0 then
    let recentAvg := sumAvg recentDays / (recentDays.length : ℚ)
    let olderAvg := sumAvg olderDays / (olderDays.length : ℚ)
    some
      { date := (sorted.getD i default).date,
        value := pctChange recentAvg olderAvg,
        recentAvg := round1 recentAvg,
        olderAvg := round1 olderAvg }
  else none

def calculateDailyTrends (allStats : List DailyStat) : List TrendHistoryEntry :=
  if allStats.length < 14 then []
  else
    let sortedStats := stableSort statLe allStats
    (List.range' 13 (sortedStats.length - 13)).filterMap (trendEntryAt sortedStats)

/-! ## A heap model for the frame claim about `calculateDailyTrends`

The only aliasing-sensitive step of the source is
`var sortedStats = allStats.slice().sort(...)`: `slice()` allocates a fresh
array and `sort` mutates *that* array in place.  To state the frame property
honestly we thread an explicit heap of arrays and replay each array
operation with its heap effect. -/

structure Heap where
  arrays : List (List DailyStat)
  deriving Repr

def Heap.read (h : Heap) (r : Nat) : List DailyStat := h.arrays.getD r []

def Heap.write (h : Heap) (r : Nat) (v : List DailyStat) : Heap := ⟨h.arrays.set r v⟩

def Heap.alloc (h : Heap) (v : List DailyStat) : Heap × Nat :=
  (⟨h.arrays ++ [v]⟩, h.arrays.length)

/-- `calculateDailyTrends` with explicit heap effects: read the argument
array, `slice()` it into a fresh cell, sort that cell in place, and compute
the trend history from the sorted copy. -/
def calculateDailyTrendsH (h : Heap) (r : Nat) : Heap × List TrendHistoryEntry :=
  let a := h.read r
  if a.length < 14 then (h, [])
  else
    let alloced := h.alloc (h.read r)
    let h1 := alloced.1
    let r1 := alloced.2
    let h2 := h1.write r1 (stableSort statLe (h1.read r1))
    let sortedStats := h2.read r1
    (h2, (List.range' 13 (sortedStats.length - 13)).filterMap (trendEntryAt sortedStats))

/-! ## Specification-side definitions and proof helpers -/

/-- Modelled from the spec (§4.1): fields are the maximal runs between
separators, where a separator is a comma preceded by an even number of
double quotes ("outside quotes").  Used to compare the code's splitter with
the spec's description. -/
def specSplitAux (q : Nat) (acc : List Char) : List Char → List (List Char)
  | [] => [acc.reverse]
  | c :: rest =>
    if c = '"' then specSplitAux (q + 1) (c :: acc) rest
    else if c = ',' ∧ Even q then acc.reverse :: specSplitAux q [] rest
    else specSplitAux q (c :: acc) rest

/-- Reassemble chunks with the separating commas, to state that the splitter
consumes its whole input (it terminates having looked at every character,
unbalanced quotes included). -/
def joinWithComma : List (List Char) → List Char
  | [] => []
  | [f] => f
  | f :: fs => f ++ ',' :: joinWithComma fs

/-- The claimed `0 <= hour <= 23` invariant on an `Event`, as a decidable
check (`none` — a `NaN` hour — is out of range). -/
def hourInRange (e : Event) : Bool :=
  match e.hour with
  | some v => decide (0 ≤ v ∧ v ≤ 23)
  | none => false

/-- Sum of the amounts of the events of date `d`. -/
def totOf (d : List Char) (feeds : List Event) : Nat :=
  ((feeds.filter fun e => decide (e.date = d)).map fun e => e.amount).sum

/-- Number of events of date `d`. -/
def cntOf (d : List Char) (feeds : List Event) : Nat :=
  (feeds.filter fun e => decide (e.date = d)).length

instance : Inhabited Event := ⟨⟨[], [], none, 1⟩⟩

instance : Inhabited TrendPoint := ⟨⟨0, 0, none⟩⟩

instance : Inhabited TimeSlotStat := ⟨⟨"", 0, 0, 0, 0⟩⟩

instance : Inhabited OverallStats := ⟨⟨0, [], [], 0, 0⟩⟩

instance : Inhabited AnalysisResult := ⟨⟨default, none, [], [], [], []⟩⟩

instance {ε α : Type} [DecidableEq ε] [DecidableEq α] : DecidableEq (Except ε α)
  | .error a, .error b =>
    if h : a = b then .isTrue (by rw [h]) else .isFalse (by simp [h])
  | .error _, .ok _ => .isFalse (by simp)
  | .ok _, .error _ => .isFalse (by simp)
  | .ok a, .ok b =>
    if h : a = b then .isTrue (by rw [h]) else .isFalse (by simp [h])

/-! ## Concrete inputs for witnesses and counterexamples -/

/-- Scenario A of the spec: a well-formed two-row bottle-feed CSV. -/
def csvA : List Char :=
  "Type,Start,Start Location,End Condition\nFeed,2023-03-01 08:00,Bottle,120ml\nFeed,2023-03-01 12:30,Bottle,150ml".data

def resA : AnalysisResult := (analyzeBottleFeeds csvA).toOption.getD default

/-- A row whose `Start` time is `99:00`: the source never range-checks the
parsed hour. -/
def csvHour99 : List Char :=
  "Type,Start,Start Location,End Condition\nFeed,2023-03-01 99:00,Bottle,120ml".data

def resHour99 : AnalysisResult := (analyzeBottleFeeds csvHour99).toOption.getD default

/-- The event the analysis of `csvHour99` stores in `rawFeeds`. -/
def evHour99 : Event := ⟨"2023-03-01".data, "99:00".data, some 99, 120⟩

/-- Fourteen days of one 100 ml feed each: enough data for `recentTrend`. -/
def csv14 : List Char :=
  ("Type,Start,Start Location,End Condition\n" ++
   "Feed,2023-03-10 08:00,Bottle,100ml\nFeed,2023-03-11 08:00,Bottle,100ml\n" ++
   "Feed,2023-03-12 08:00,Bottle,100ml\nFeed,2023-03-13 08:00,Bottle,100ml\n" ++
   "Feed,2023-03-14 08:00,Bottle,100ml\nFeed,2023-03-15 08:00,Bottle,100ml\n" ++
   "Feed,2023-03-16 08:00,Bottle,100ml\nFeed,2023-03-17 08:00,Bottle,100ml\n" ++
   "Feed,2023-03-18 08:00,Bottle,100ml\nFeed,2023-03-19 08:00,Bottle,100ml\n" ++
   "Feed,2023-03-20 08:00,Bottle,100ml\nFeed,2023-03-21 08:00,Bottle,100ml\n" ++
   "Feed,2023-03-22 08:00,Bottle,100ml\nFeed,2023-03-23 08:00,Bottle,100ml").data

def res14 : AnalysisResult := (analyzeBottleFeeds csv14).toOption.getD default

/-- The trend point the analysis of `csv14` produces. -/
def tp14 : TrendPoint := ⟨100, 100, some 0⟩

/-- Fourteen consecutive one-feed days (constant 100 ml), ascending by
date: a sorted `DailyStat` sequence of length 14. -/
def stats14 : List DailyStat :=
  (List.range 14).map fun i =>
    ⟨"2023-03-".data ++ (Nat.toDigits 10 (10 + i)).map id, 1, 100, 100⟩

/-! ## Parser lemmas -/

theorem csvChunksAux_ne_nil (l : List Char) (inQ : Bool) (acc : List Char) :
    csvChunksAux inQ acc l ≠ [] := by
  induction l generalizing inQ acc with
  | nil => simp [csvChunksAux]
  | cons c rest ih =>
    simp only [csvChunksAux]
    split
    · exact ih _ _
    · split
      · simp
      · exact ih _ _

theorem joinWithComma_cons (f : List Char) (fs : List (List Char)) (h : fs ≠ []) :
    joinWithComma (f :: fs) = f ++ ',' :: joinWithComma fs := by
  cases fs with
  | nil => exact absurd rfl h
  | cons g gs => rfl

theorem joinWithComma_csvChunksAux (l : List Char) :
    ∀ (inQ : Bool) (acc : List Char),
      joinWithComma (csvChunksAux inQ acc l) = acc.reverse ++ l := by
  induction l with
  | nil => intro inQ acc; simp [csvChunksAux, joinWithComma]
  | cons c rest ih =>
    intro inQ acc
    simp only [csvChunksAux]
    split
    · next hq =>
      rw [ih _ (c :: acc)]
      simp [hq]
    · split
      · next hc =>
        rw [joinWithComma_cons _ _ (csvChunksAux_ne_nil _ _ _), ih _ []]
        have : c = ',' := by
          rcases Bool.and_eq_true_iff.mp hc with ⟨h1, _⟩
          exact of_decide_eq_true h1
        simp [this]
      · rw [ih _ (c :: acc)]
        simp

theorem specSplitAux_eq_csvChunksAux (l : List Char) :
    ∀ (q : Nat) (acc : List Char),
      specSplitAux q acc l = csvChunksAux (!decide (Even q)) acc l := by
  induction l with
  | nil => intro q acc; rfl
  | cons c rest ih =>
    intro q acc
    simp only [specSplitAux, csvChunksAux]
    by_cases hq : c = '"'
    · rw [if_pos hq, if_pos hq, ih (q + 1) (c :: acc)]
      have : (!decide (Even (q + 1))) = decide (Even q) := by
        by_cases h : Even q <;> simp [Nat.even_add_one, h]
      rw [this, Bool.not_not]
    · rw [if_neg hq, if_neg hq]
      by_cases hc : c = ','
      · by_cases he : Even q
        · rw [if_pos ⟨hc, he⟩, if_pos (by simp [hc, he]), ih q []]
          have hf : (!decide (Even q)) = false := by simp [he]
          rw [hf]
        · rw [if_neg (fun h => he h.2), if_neg (by simp [he]), ih q (c :: acc)]
      · rw [if_neg (fun h => hc h.1), if_neg (by simp [hc]), ih q (c :: acc)]

theorem parseCSVLine_eq_spec (line : List Char) (h : (jsTrim line).isEmpty = false) :
    parseCSVLine line = (specSplitAux 0 [] line).map fun f => jsTrim (stripQuotes f) := by
  rw [parseCSVLine, if_neg (by simp [h]), specSplitAux_eq_csvChunksAux]
  rfl

theorem splitOnChar_ne_nil (sep : Char) (l : List Char) : splitOnChar sep l ≠ [] := by
  induction l with
  | nil => simp [splitOnChar]
  | cons c rest ih =>
    simp only [splitOnChar]
    split
    · simp
    · split
      · next heq => exact absurd heq ih
      · simp

theorem splitOnChar_length (sep : Char) (l : List Char) :
    (splitOnChar sep l).length = 1 + l.count sep := by
  induction l with
  | nil => simp [splitOnChar]
  | cons c rest ih =>
    simp only [splitOnChar]
    by_cases hc : c = sep
    · rw [if_pos hc]
      simp only [List.length_cons, ih, List.count_cons]
      simp [hc]
      omega
    · rw [if_neg hc]
      rcases hrec : splitOnChar sep rest with _ | ⟨f, fs⟩
      · exact absurd hrec (splitOnChar_ne_nil sep rest)
      · simp only [List.length_cons, List.count_cons]
        have := ih
        rw [hrec] at this
        simp only [List.length_cons] at this
        have hcs : (c == sep) = false := by simp [hc]
        simp [hcs, this]

/-! ## Stable sort lemmas -/

theorem insertSorted_perm {α : Type} (le : α → α → Bool) (a : α) (l : List α) :
    List.Perm (insertSorted le a l) (a :: l) := by
  induction l with
  | nil => exact List.Perm.refl _
  | cons b t ih =>
    simp only [insertSorted]
    split
    · exact List.Perm.refl _
    · exact (List.Perm.cons b ih).trans (List.Perm.swap a b t)

theorem stableSort_perm {α : Type} (le : α → α → Bool) (l : List α) :
    List.Perm (stableSort le l) l := by
  induction l with
  | nil => exact List.Perm.refl _
  | cons a t ih =>
    exact (insertSorted_perm le a (stableSort le t)).trans (List.Perm.cons a ih)

theorem mem_stableSort {α : Type} (le : α → α → Bool) (a : α) (l : List α) :
    a ∈ stableSort le l ↔ a ∈ l :=
  (stableSort_perm le l).mem_iff

theorem length_stableSort {α : Type} (le : α → α → Bool) (l : List α) :
    (stableSort le l).length = l.length :=
  (stableSort_perm le l).length_eq

theorem stableSort_eq_self {α : Type} (le : α → α → Bool) :
    ∀ l : List α, l.Pairwise (fun x y => le x y = true) → stableSort le l = l := by
  intro l
  induction l with
  | nil => intro _; rfl
  | cons a t ih =>
    intro h
    obtain ⟨h1, h2⟩ := List.pairwise_cons.mp h
    simp only [stableSort, ih h2]
    cases t with
    | nil => rfl
    | cons b u => simp [insertSorted, h1 b (List.mem_cons_self b u)]

/-! ## Claim theorems: record parsing -/

/-- **C8 counterexample.**  The claim says that for *every* row, the header
row included, a comma inside a double-quoted field is not a field boundary.
The source splits the header row naively at every comma
(`lines[0].split(",")`), so the quoted field `"a,b"` of this header becomes
the two header fields `a` and `b` — while the quote-aware data-row splitter
yields the single field `a,b`. -/
theorem claim8_counterexample :
    headersOfLine ((splitOnChar '\n' "\"a,b\",Type\nrow".data).getD 0 []) =
      ["a".data, "b".data, "Type".data] ∧
    parseCSVLine ((splitOnChar '\n' "\"a,b\",Type\nrow".data).getD 0 []) =
      ["a,b".data, "Type".data] := by
  constructor
  · decide
  · decide

/-- **C8 (amended).**  For every *data* row (the rows tokenised with
`parseCSVLine`), fields are split exactly at the commas preceded by an even
number of double quotes — a comma inside quotes is not a boundary — and each
field then has an edge quote pair stripped and is trimmed (`specSplitAux` is
the spec-side splitter, defined by the quote-parity description).  The
*header* row, by contrast, is split at every comma whatsoever: it always has
`1 + (number of commas)` fields, quoted or not. -/
theorem claim8_quote_handling (line : List Char) :
    ((jsTrim line).isEmpty = false →
      parseCSVLine line = (specSplitAux 0 [] line).map fun f => jsTrim (stripQuotes f)) ∧
    (headersOfLine line).length = 1 + line.count ',' := by
  constructor
  · exact parseCSVLine_eq_spec line
  · rw [headersOfLine, List.length_map, splitOnChar_length]

/-- **C8 witness** at the line `a,"b,c"`. -/
theorem claim8_quote_handling_witness :
    parseCSVLine "a,\"b,c\"".data =
      ((specSplitAux 0 [] "a,\"b,c\"".data).map fun f => jsTrim (stripQuotes f)) ∧
    (headersOfLine "a,\"b,c\"".data).length = 1 + ("a,\"b,c\"".data).count ',' :=
  ⟨(claim8_quote_handling "a,\"b,c\"".data).1 (by decide),
   (claim8_quote_handling "a,\"b,c\"".data).2⟩

/-- **C9.**  Rows are parsed independently: the events extracted from the
data rows around a malformed row (unbalanced quotes or otherwise) are
exactly the events those rows yield on their own, and the line splitter is a
total function that consumes every character of any line — the chunks it
returns reassemble, with the consumed separators, to the whole line, for
unbalanced-quote lines included (the quoting mode simply persists to the end
of the row). -/
theorem claim9_unbalanced_quote_isolation (ti si li ei : Nat)
    (pre post : List (List Char)) (bad : List Char) :
    ((pre ++ bad :: post).filterMap (rowToEvent ti si li ei) =
      pre.filterMap (rowToEvent ti si li ei) ++ (rowToEvent ti si li ei bad).toList ++
        post.filterMap (rowToEvent ti si li ei)) ∧
    (∀ line : List Char, joinWithComma (csvChunksAux false [] line) = line) := by
  constructor
  · rw [List.filterMap_append, List.filterMap_cons]
    rcases rowToEvent ti si li ei bad with _ | e
    · simp
    · simp
  · intro line
    rw [joinWithComma_csvChunksAux]
    rfl

/-! ## Claim theorems: abort behaviour -/

theorem requiredIndices_eq_none_iff (headers : List (List Char)) :
    requiredIndices headers = none ↔
      headers.findIdx? (· == "Type".data) = none ∨
      headers.findIdx? (· == "Start".data) = none ∨
      headers.findIdx? (· == "Start Location".data) = none ∨
      headers.findIdx? (· == "End Condition".data) = none := by
  rcases h1 : headers.findIdx? (· == "Type".data) with _ | ti <;>
    rcases h2 : headers.findIdx? (· == "Start".data) with _ | si <;>
      rcases h3 : headers.findIdx? (· == "Start Location".data) with _ | li <;>
        rcases h4 : headers.findIdx? (· == "End Condition".data) with _ | ei <;>
          simp [requiredIndices, h1, h2, h3, h4]

/-- **C4.**  The analysis aborts with the empty-data error exactly when the
input has fewer than two rows; with the missing-columns error exactly when
it has at least two rows but one of the four required column names is not
found in the (naively split) header; with the no-usable-data error exactly
when the header is fine but no event survives the row filter; and an aborted
run never carries a result (all-or-nothing).  The fourth conjunct spells out
that the missing-columns condition is exactly "one of the four `findIndex`
lookups fails". -/
theorem claim4_all_or_nothing (csv : List Char) :
    (analyzeBottleFeeds csv = Except.error msgEmpty ↔
      (splitOnChar '\n' csv).length < 2) ∧
    (analyzeBottleFeeds csv = Except.error msgColumns ↔
      2 ≤ (splitOnChar '\n' csv).length ∧
        requiredIndices (headersOfLine ((splitOnChar '\n' csv).getD 0 [])) = none) ∧
    (analyzeBottleFeeds csv = Except.error msgNoFeeds ↔
      2 ≤ (splitOnChar '\n' csv).length ∧
        ∃ ti si li ei,
          requiredIndices (headersOfLine ((splitOnChar '\n' csv).getD 0 [])) =
            some (ti, si, li, ei) ∧
          ((splitOnChar '\n' csv).drop 1).filterMap (rowToEvent ti si li ei) = []) ∧
    (requiredIndices (headersOfLine ((splitOnChar '\n' csv).getD 0 [])) = none ↔
      (headersOfLine ((splitOnChar '\n' csv).getD 0 [])).findIdx?
          (· == "Type".data) = none ∨
      (headersOfLine ((splitOnChar '\n' csv).getD 0 [])).findIdx?
          (· == "Start".data) = none ∨
      (headersOfLine ((splitOnChar '\n' csv).getD 0 [])).findIdx?
          (· == "Start Location".data) = none ∨
      (headersOfLine ((splitOnChar '\n' csv).getD 0 [])).findIdx?
          (· == "End Condition".data) = none) ∧
    ((∃ e, analyzeBottleFeeds csv = Except.error e) ↔
      ¬ ∃ r, analyzeBottleFeeds csv = Except.ok r) := by
  have hm1 : msgEmpty ≠ msgColumns := by decide
  have hm2 : msgEmpty ≠ msgNoFeeds := by decide
  have hm3 : msgColumns ≠ msgNoFeeds := by decide
  by_cases hlen : (splitOnChar '\n' csv).length < 2
  · have ha : analyzeBottleFeeds csv = Except.error msgEmpty := by
      simp only [analyzeBottleFeeds]
      rw [if_pos hlen]
    refine ⟨iff_of_true ha hlen, ?_, ?_, requiredIndices_eq_none_iff _, by simp [ha]⟩
    · exact iff_of_false (by simp [ha, hm1]) (by intro h; omega)
    · exact iff_of_false (by simp [ha, hm2]) (fun h => absurd h.1 (by omega))
  · rcases Option.eq_none_or_eq_some
        (requiredIndices (headersOfLine ((splitOnChar '\n' csv).getD 0 [])))
        with hreq | ⟨⟨ti, si, li, ei⟩, hreq⟩
    · have ha : analyzeBottleFeeds csv = Except.error msgColumns := by
        simp only [analyzeBottleFeeds]
        rw [if_neg hlen, hreq]
      refine ⟨?_, iff_of_true ha ⟨by omega, hreq⟩, ?_, requiredIndices_eq_none_iff _,
        by simp [ha]⟩
      · exact iff_of_false (by simp [ha, hm1.symm]) (by omega)
      · refine iff_of_false (by simp [ha, hm3]) ?_
        rintro ⟨-, a, b, c, d, hsome, -⟩
        rw [hreq] at hsome
        cases hsome
    · by_cases hfeeds :
        ((splitOnChar '\n' csv).drop 1).filterMap (rowToEvent ti si li ei) = []
      · have ha : analyzeBottleFeeds csv = Except.error msgNoFeeds := by
          simp only [analyzeBottleFeeds]
          rw [if_neg hlen, hreq]
          simp only [List.isEmpty_iff]
          rw [if_pos hfeeds]
        refine ⟨?_, ?_, iff_of_true ha ⟨by omega, ti, si, li, ei, hreq, hfeeds⟩,
          requiredIndices_eq_none_iff _, by simp [ha]⟩
        · exact iff_of_false (by simp [ha, hm2.symm]) (by omega)
        · refine iff_of_false (by simp [ha, hm3.symm]) ?_
          rintro ⟨-, hnone⟩
          rw [hreq] at hnone
          cases hnone
      · have ha : analyzeBottleFeeds csv = Except.ok
            (buildResult
              (((splitOnChar '\n' csv).drop 1).filterMap (rowToEvent ti si li ei))) := by
          simp only [analyzeBottleFeeds]
          rw [if_neg hlen, hreq]
          simp only [List.isEmpty_iff]
          rw [if_neg hfeeds]
        refine ⟨?_, ?_, ?_, requiredIndices_eq_none_iff _, by simp [ha]⟩
        · exact iff_of_false (by simp [ha]) (by omega)
        · refine iff_of_false (by simp [ha]) ?_
          rintro ⟨-, hnone⟩
          rw [hreq] at hnone
          cases hnone
        · refine iff_of_false (by simp [ha]) ?_
          rintro ⟨-, a, b, c, d, hsome, hnil⟩
          rw [hreq] at hsome
          injection hsome with h
          simp only [Prod.mk.injEq] at h
          obtain ⟨rfl, rfl, rfl, rfl⟩ := h
          exact hfeeds hnil

/-! ## Field trimming lemmas -/

theorem dropWhile_head_false {p : Char → Bool} :
    ∀ (l : List Char) (c : Char) (rest : List Char),
      l.dropWhile p = c :: rest → p c = false := by
  intro l
  induction l with
  | nil => intro c rest h; simp at h
  | cons a t ih =>
    intro c rest h
    by_cases hp : p a
    · rw [List.dropWhile_cons_of_pos hp] at h
      exact ih c rest h
    · rw [List.dropWhile_cons_of_neg hp] at h
      cases h
      simpa using hp

theorem jsTrim_head_not_ws (l : List Char) (c : Char) (rest : List Char)
    (h : jsTrim l = c :: rest) : isWS c = false := by
  rw [jsTrim] at h
  have h1 : (l.dropWhile isWS).reverse.dropWhile isWS = (c :: rest).reverse :=
    List.reverse_eq_iff.mp h
  obtain ⟨pre, hpre⟩ := List.dropWhile_suffix (l := (l.dropWhile isWS).reverse) isWS
  rw [h1] at hpre
  have hm : l.dropWhile isWS = c :: (rest ++ pre.reverse) := by
    have h2 := congrArg List.reverse hpre
    simp only [List.reverse_append, List.reverse_reverse, List.reverse_cons] at h2
    simpa using h2.symm
  exact dropWhile_head_false _ _ _ hm

theorem parseCSVLine_field_isTrim (line f : List Char) (hf : f ∈ parseCSVLine line) :
    ∃ g, f = jsTrim (stripQuotes g) := by
  rw [parseCSVLine] at hf
  split at hf
  · simp at hf
  · obtain ⟨g, _, hg⟩ := List.mem_map.mp hf
    exact ⟨g, hg.symm⟩

theorem splitOnChar_not_mem (sep : Char) (l : List Char) (h : sep ∉ l) :
    splitOnChar sep l = [l] := by
  induction l with
  | nil => rfl
  | cons c t ih =>
    have hc : ¬ c = sep := fun hc => h (hc ▸ List.mem_cons_self c t)
    have ht : sep ∉ t := fun ht => h (List.mem_cons_of_mem c ht)
    simp only [splitOnChar, if_neg hc, ih ht]

theorem splitOnChar_cons_ne (sep c : Char) (t : List Char) (h : ¬ c = sep) :
    ∃ f fs, splitOnChar sep (c :: t) = (c :: f) :: fs := by
  simp only [splitOnChar, if_neg h]
  rcases hrec : splitOnChar sep t with _ | ⟨f, fs⟩
  · exact absurd hrec (splitOnChar_ne_nil sep t)
  · exact ⟨f, fs, rfl⟩

/-- The date part of a trimmed nonempty field is nonempty: a trimmed field
cannot start with the space the `Start` field is split on. -/
theorem datePart_ne_nil (g dt : List Char) (hdt : dt = jsTrim g) (hne : dt ≠ []) :
    (splitOnChar ' ' dt).getD 0 [] ≠ [] := by
  rcases hd : dt with _ | ⟨c, rest⟩
  · exact absurd hd hne
  · have hcws : isWS c = false := jsTrim_head_not_ws g c rest (hd ▸ hdt.symm)
    have hc : ¬ c = ' ' := by
      intro hc
      rw [hc] at hcws
      simp [isWS] at hcws
    obtain ⟨f, fs, hsplit⟩ := splitOnChar_cons_ne ' ' c rest hc
    rw [hsplit]
    simp

/-! ## Row extraction lemmas -/

/-- The amount expression of the row loop in one piece: with an empty
`End Condition` there are no digits, and with no digits `parseInt` is never
reached, so the three-way conditional collapses to "value of the first digit
run" (`0` when there is none). -/
theorem rowAmount_eq (ec : List Char) :
    (if !ec.isEmpty then
        (if (firstDigitRun ec).isEmpty then 0 else digitsToNat (firstDigitRun ec))
      else 0) = digitsToNat (firstDigitRun ec) := by
  rcases ec with _ | ⟨c, t⟩
  · simp [firstDigitRun, digitsToNat]
  · simp only [List.isEmpty_cons, Bool.not_false, if_true]
    split
    · next hrun =>
      rw [List.isEmpty_iff] at hrun
      rw [hrun]
      simp [digitsToNat]
    · rfl

/-- The location guard in one piece: an absent (empty) field cannot contain
a nonempty needle, so the truthiness test is subsumed by the substring
test. -/
theorem locGuard_eq (n loc : List Char) (hn : n.isEmpty = false) :
    (!loc.isEmpty && containsSub n loc) = containsSub n loc := by
  rcases loc with _ | ⟨c, t⟩
  · simp [containsSub, hn]
  · simp

theorem rowToEvent_some_inv (ti si li ei : Nat) (line : List Char) (e : Event)
    (h : rowToEvent ti si li ei line = some e) : 0 < e.amount ∧ e.date ≠ [] := by
  simp only [rowToEvent, rowAmount_eq] at h
  rw [locGuard_eq ['B', 'o', 't', 't', 'l', 'e'] ((parseCSVLine line).getD li []) rfl] at h
  split at h
  · cases h
  · split at h
    · cases h
    · next hlen =>
      split at h
      · split at h
        · next hguard =>
          rw [Option.some.injEq] at h
          obtain ⟨hdt, hamt⟩ := Bool.and_eq_true_iff.mp hguard
          have hdt' : (parseCSVLine line).getD si [] ≠ [] := by
            intro hnil
            rw [hnil] at hdt
            simp at hdt
          have hsi : si < (parseCSVLine line).length := by omega
          have hmem : (parseCSVLine line).getD si [] ∈ parseCSVLine line := by
            rw [List.getD_eq_getElem _ _ hsi]
            exact List.getElem_mem hsi
          obtain ⟨g, hg⟩ := parseCSVLine_field_isTrim line _ hmem
          constructor
          · have : e.amount ≠ 0 := by
              rw [← h]
              simpa using hamt
            omega
          · rw [← h]
            exact datePart_ne_nil (stripQuotes g) _ hg hdt'
        · cases h
      · cases h

/-- Destructor for a successful run: the results are `buildResult` of the
events extracted with the located column indices. -/
theorem analyze_ok_inv (csv : List Char) (r : AnalysisResult)
    (h : analyzeBottleFeeds csv = Except.ok r) :
    ∃ ti si li ei,
      requiredIndices (headersOfLine ((splitOnChar '\n' csv).getD 0 [])) =
        some (ti, si, li, ei) ∧
      r = buildResult
        (((splitOnChar '\n' csv).drop 1).filterMap (rowToEvent ti si li ei)) := by
  simp only [analyzeBottleFeeds] at h
  split at h
  · cases h
  · split at h
    · cases h
    · next ti si li ei heq =>
      split at h
      · cases h
      · rw [Except.ok.injEq] at h
        exact ⟨ti, si, li, ei, heq, h.symm⟩

/-! ## Claim theorems: event filtering -/

/-- **C6.**  For a non-blank data row with enough fields, the row yields an
event exactly when its `Start Location` field contains the substring
`Bottle`, the first digit run of its `End Condition` field has nonzero
value, and the date part of its `Start` field (the text before the first
space) is nonempty; moreover when the `Start` field contains no space at
all, the event's time defaults to `00:00`. -/
theorem claim6_row_acceptance (ti si li ei : Nat) (line : List Char)
    (hblank : (jsTrim line).isEmpty = false)
    (hlen : max (max ti si) (max li ei) < (parseCSVLine line).length) :
    ((rowToEvent ti si li ei line).isSome ↔
      (containsSub "Bottle".data ((parseCSVLine line).getD li []) = true ∧
        digitsToNat (firstDigitRun ((parseCSVLine line).getD ei [])) ≠ 0 ∧
        (splitOnChar ' ' ((parseCSVLine line).getD si [])).getD 0 [] ≠ [])) ∧
    (∀ e, rowToEvent ti si li ei line = some e →
      ' ' ∉ (parseCSVLine line).getD si [] → e.time = "00:00".data) := by
  have hni : ¬ ((jsTrim line).isEmpty = true) := by simp [hblank]
  have hnl : ¬ ((parseCSVLine line).length ≤ max (max ti si) (max li ei)) := by omega
  have hsi : si < (parseCSVLine line).length := by omega
  have hmem : (parseCSVLine line).getD si [] ∈ parseCSVLine line := by
    rw [List.getD_eq_getElem _ _ hsi]
    exact List.getElem_mem hsi
  obtain ⟨g, hg⟩ := parseCSVLine_field_isTrim line _ hmem
  constructor
  · simp only [rowToEvent, rowAmount_eq]
    rw [if_neg hni, if_neg hnl,
      locGuard_eq ['B', 'o', 't', 't', 'l', 'e'] ((parseCSVLine line).getD li []) rfl]
    by_cases hloc :
      containsSub ['B', 'o', 't', 't', 'l', 'e'] ((parseCSVLine line).getD li []) = true
    · rw [if_pos hloc]
      by_cases hamt : digitsToNat (firstDigitRun ((parseCSVLine line).getD ei [])) = 0
      · have hgf : ((!((parseCSVLine line).getD si []).isEmpty) &&
            (digitsToNat (firstDigitRun ((parseCSVLine line).getD ei [])) != 0)) = false := by
          rw [hamt]
          simp
        rw [if_neg fun hcon => Bool.noConfusion (hgf ▸ hcon)]
        exact iff_of_false (by simp) fun h => h.2.1 hamt
      · by_cases hdt : (parseCSVLine line).getD si [] = []
        · have hgf : ((!((parseCSVLine line).getD si []).isEmpty) &&
              (digitsToNat (firstDigitRun ((parseCSVLine line).getD ei [])) != 0)) = false := by
            rw [hdt]
            simp
          rw [if_neg fun hcon => Bool.noConfusion (hgf ▸ hcon)]
          refine iff_of_false (by simp) fun h => h.2.2 ?_
          rw [hdt]
          rfl
        · have hdp := datePart_ne_nil (stripQuotes g) _ hg hdt
          have hgt : ((!((parseCSVLine line).getD si []).isEmpty) &&
              (digitsToNat (firstDigitRun ((parseCSVLine line).getD ei [])) != 0)) = true := by
            have h5 : ((parseCSVLine line).getD si []).isEmpty = false :=
              Bool.eq_false_iff.mpr fun hb => hdt (List.isEmpty_iff.mp hb)
            rw [h5]
            simp only [Bool.not_false, Bool.true_and]
            exact bne_iff_ne.mpr hamt
          rw [if_pos hgt]
          exact iff_of_true rfl ⟨hloc, hamt, hdp⟩
    · rw [if_neg hloc]
      exact iff_of_false (by simp) fun h => hloc h.1
  · intro e he hsp
    simp only [rowToEvent, rowAmount_eq] at he
    rw [if_neg hni, if_neg hnl,
      locGuard_eq ['B', 'o', 't', 't', 'l', 'e'] ((parseCSVLine line).getD li []) rfl] at he
    split at he
    · split at he
      · rw [Option.some.injEq] at he
        rw [← he]
        have hone : splitOnChar ' ' ((parseCSVLine line).getD si []) =
            [(parseCSVLine line).getD si []] := splitOnChar_not_mem ' ' _ hsp
        simp only [hone]
        rfl
      · cases he
    · cases he

/-- **C6 witness** at the row `Feed,2023-03-01,Bottle,120ml` with the usual
column positions `0,1,2,3`. -/
theorem claim6_row_acceptance_witness :
    ((rowToEvent 0 1 2 3 "Feed,2023-03-01,Bottle,120ml".data).isSome ↔
      (containsSub "Bottle".data
          ((parseCSVLine "Feed,2023-03-01,Bottle,120ml".data).getD 2 []) = true ∧
        digitsToNat (firstDigitRun
          ((parseCSVLine "Feed,2023-03-01,Bottle,120ml".data).getD 3 [])) ≠ 0 ∧
        (splitOnChar ' '
          ((parseCSVLine "Feed,2023-03-01,Bottle,120ml".data).getD 1 [])).getD 0 [] ≠ [])) ∧
    (∀ e, rowToEvent 0 1 2 3 "Feed,2023-03-01,Bottle,120ml".data = some e →
      ' ' ∉ (parseCSVLine "Feed,2023-03-01,Bottle,120ml".data).getD 1 [] →
      e.time = "00:00".data) :=
  claim6_row_acceptance 0 1 2 3 "Feed,2023-03-01,Bottle,120ml".data (by decide) (by decide)

/-! ## Claim theorems: the Event invariant -/

theorem hourInRange_iff (e : Event) :
    hourInRange e = true ↔ ∃ v, e.hour = some v ∧ 0 ≤ v ∧ v ≤ 23 := by
  rcases he : e.hour with _ | v
  · simp [hourInRange, he]
  · simp [hourInRange, he]

/-- **C2 counterexample.**  The claim asserts every event in `rawFeeds`
satisfies `amount > 0` and `0 ≤ hour ≤ 23`, with offending rows dropped.
The source never range-checks the hour: a row whose `Start` time is `99:00`
produces an accepted event with `hour = 99` in `rawFeeds`. -/
theorem claim2_counterexample :
    analyzeBottleFeeds csvHour99 = Except.ok resHour99 ∧
    evHour99 ∈ resHour99.rawFeeds ∧
    0 < evHour99.amount ∧
    evHour99.hour = some 99 ∧
    hourInRange evHour99 = false ∧
    ¬ (∃ v, evHour99.hour = some v ∧ 0 ≤ v ∧ v ≤ 23) := by
  refine ⟨by with_unfolding_all decide, by with_unfolding_all decide, by decide, by decide,
    by decide, ?_⟩
  rintro ⟨v, hv, -, hle⟩
  have hv99 : v = 99 := by
    have : (some 99 : Option Int) = some v := hv
    exact (Option.some.injEq _ _ ▸ this).symm
  omega

/-- **C2 (amended).**  Every event the analysis stores in `rawFeeds` has a
positive amount and a nonempty date — rows violating that are silently
dropped — but the `hour` field is never validated and may lie outside `0..23` (or
even be `NaN`). -/
theorem claim2_rawFeeds_invariant (csv : List Char) (r : AnalysisResult)
    (h : analyzeBottleFeeds csv = Except.ok r) :
    ∀ e ∈ r.rawFeeds, 0 < e.amount ∧ e.date ≠ [] := by
  obtain ⟨ti, si, li, ei, -, hr⟩ := analyze_ok_inv csv r h
  subst hr
  intro e he
  simp only [buildResult] at he
  rw [mem_stableSort] at he
  obtain ⟨line, -, hline⟩ := List.mem_filterMap.mp he
  exact rowToEvent_some_inv ti si li ei line e hline

/-- The first raw feed of the Scenario A analysis. -/
def evA : Event := ⟨"2023-03-01".data, "08:00".data, some 8, 120⟩

/-- **C2 witness**: the amended invariant at the Scenario A input, applied
to its first raw feed. -/
theorem claim2_rawFeeds_invariant_witness : 0 < evA.amount ∧ evA.date ≠ [] :=
  claim2_rawFeeds_invariant csvA resA (by with_unfolding_all decide) evA
    (by with_unfolding_all decide)

/-! ## Daily-grouping lemmas -/

theorem totOf_append (d : List Char) (l1 l2 : List Event) :
    totOf d (l1 ++ l2) = totOf d l1 + totOf d l2 := by
  simp [totOf, List.filter_append]

theorem cntOf_append (d : List Char) (l1 l2 : List Event) :
    cntOf d (l1 ++ l2) = cntOf d l1 + cntOf d l2 := by
  simp [cntOf, List.filter_append]

theorem totOf_single (d : List Char) (e : Event) :
    totOf d [e] = if e.date = d then e.amount else 0 := by
  by_cases h : e.date = d <;> simp [totOf, h]

theorem cntOf_single (d : List Char) (e : Event) :
    cntOf d [e] = if e.date = d then 1 else 0 := by
  by_cases h : e.date = d <;> simp [cntOf, h]

theorem totOf_cntOf_zero (d : List Char) (l : List Event) (h : ∀ e ∈ l, e.date ≠ d) :
    totOf d l = 0 ∧ cntOf d l = 0 := by
  have hf : l.filter (fun e => decide (e.date = d)) = [] := by
    rw [List.filter_eq_nil_iff]
    intro e he
    simp [h e he]
  simp [totOf, cntOf, hf]

/-- `bumpFirst` either appends a fresh entry (no key matched) or bumps the
first entry whose key matches, leaving everything else in place. -/
theorem bumpFirst_cases (e : Event) (acc : List DayAcc) :
    (bumpFirst e acc = acc ++ [⟨e.date, 1, e.amount⟩] ∧ ∀ g ∈ acc, g.date ≠ e.date) ∨
    (∃ pre g0 suf, acc = pre ++ g0 :: suf ∧ g0.date = e.date ∧
      (∀ g ∈ pre, g.date ≠ e.date) ∧
      bumpFirst e acc = pre ++ ⟨g0.date, g0.count + 1, g0.total + e.amount⟩ :: suf) := by
  induction acc with
  | nil => exact Or.inl ⟨rfl, by simp⟩
  | cons g gs ih =>
    by_cases hd : g.date = e.date
    · refine Or.inr ⟨[], g, gs, rfl, hd, by simp, ?_⟩
      simp [bumpFirst, hd]
    · rcases ih with ⟨heq, hall⟩ | ⟨pre, g0, suf, hacc, hg0, hpre, heq⟩
      · refine Or.inl ⟨?_, ?_⟩
        · simp [bumpFirst, hd, heq]
        · intro g' hg'
          rcases List.mem_cons.mp hg' with rfl | hmem
          · exact hd
          · exact hall g' hmem
      · refine Or.inr ⟨g :: pre, g0, suf, by rw [hacc]; rfl, hg0, ?_, ?_⟩
        · intro g' hg'
          rcases List.mem_cons.mp hg' with rfl | hmem
          · exact hd
          · exact hpre g' hmem
        · simp [bumpFirst, hd, heq]

/-- One grouping step preserves the accumulator invariant: every entry holds
the running per-date total and count, the keys are distinct, and every
processed event has an entry. -/
theorem bumpFirst_inv (processed : List Event) (acc : List DayAcc) (e : Event)
    (h1 : ∀ g ∈ acc, g.total = totOf g.date processed ∧ g.count = cntOf g.date processed)
    (h2 : (acc.map fun g => g.date).Nodup)
    (h3 : ∀ e' ∈ processed, ∃ g ∈ acc, g.date = e'.date) :
    (∀ g ∈ bumpFirst e acc,
        g.total = totOf g.date (processed ++ [e]) ∧
        g.count = cntOf g.date (processed ++ [e])) ∧
    ((bumpFirst e acc).map fun g => g.date).Nodup ∧
    (∀ e' ∈ processed ++ [e], ∃ g ∈ bumpFirst e acc, g.date = e'.date) := by
  rcases bumpFirst_cases e acc with ⟨heq, hall⟩ | ⟨pre, g0, suf, hacc, hg0, hpre, heq⟩
  · have hnp : ∀ e' ∈ processed, e'.date ≠ e.date := by
      intro e' he' hcon
      obtain ⟨g', hg', hgd⟩ := h3 e' he'
      exact hall g' hg' (hgd.trans hcon)
    refine ⟨?_, ?_, ?_⟩
    · intro g hg
      rw [heq] at hg
      rcases List.mem_append.mp hg with hg | hg
      · have hne := hall g hg
        have old := h1 g hg
        rw [totOf_append, totOf_single, cntOf_append, cntOf_single,
          if_neg (fun hh => hne hh.symm), if_neg (fun hh => hne hh.symm)]
        exact ⟨by rw [old.1]; omega, by rw [old.2]; omega⟩
      · have hgeq : g = ⟨e.date, 1, e.amount⟩ := by simpa using hg
        subst hgeq
        obtain ⟨ht0, hc0⟩ := totOf_cntOf_zero e.date processed hnp
        rw [totOf_append, totOf_single, cntOf_append, cntOf_single, ht0, hc0]
        simp
    · rw [heq, List.map_append]
      refine List.Nodup.append h2 (by simp) ?_
      intro d hd1 hd2
      simp only [List.map_cons, List.map_nil, List.mem_singleton] at hd2
      obtain ⟨g', hg', hgd⟩ := List.mem_map.mp hd1
      exact hall g' hg' (hgd.trans hd2)
    · intro e' he'
      rcases List.mem_append.mp he' with he' | he'
      · obtain ⟨g', hg', hgd⟩ := h3 e' he'
        exact ⟨g', by rw [heq]; exact List.mem_append_left _ hg', hgd⟩
      · have : e' = e := by simpa using he'
        subst this
        exact ⟨⟨e'.date, 1, e'.amount⟩, by rw [heq]; simp, rfl⟩
  · subst hacc
    have h2' := h2
    rw [List.map_append, List.map_cons] at h2'
    have hsufkeys : g0.date ∉ suf.map fun g => g.date :=
      (List.nodup_cons.mp (List.Nodup.of_append_right h2')).1
    have hsufne : ∀ g ∈ suf, g.date ≠ g0.date := by
      intro g hg hcon
      exact hsufkeys (List.mem_map.mpr ⟨g, hg, hcon⟩)
    refine ⟨?_, ?_, ?_⟩
    · intro g hg
      rw [heq] at hg
      rcases List.mem_append.mp hg with hg | hg
      · have hne : g.date ≠ e.date := hpre g hg
        have old := h1 g (List.mem_append_left _ hg)
        rw [totOf_append, totOf_single, cntOf_append, cntOf_single,
          if_neg (fun hh => hne hh.symm), if_neg (fun hh => hne hh.symm)]
        exact ⟨by rw [old.1]; omega, by rw [old.2]; omega⟩
      · rcases List.mem_cons.mp hg with rfl | hg
        · have old := h1 g0 (List.mem_append_right _ (List.mem_cons_self _ _))
          rw [totOf_append, totOf_single, cntOf_append, cntOf_single,
            if_pos hg0.symm, if_pos hg0.symm]
          exact ⟨by rw [old.1], by rw [old.2]⟩
        · have hne : g.date ≠ e.date := fun hcon => hsufne g hg (hcon.trans hg0.symm)
          have old := h1 g (List.mem_append_right _ (List.mem_cons_of_mem _ hg))
          rw [totOf_append, totOf_single, cntOf_append, cntOf_single,
            if_neg (fun hh => hne hh.symm), if_neg (fun hh => hne hh.symm)]
          exact ⟨by rw [old.1]; omega, by rw [old.2]; omega⟩
    · rw [heq]
      simpa using h2
    · intro e' he'
      rcases List.mem_append.mp he' with he' | he'
      · obtain ⟨g', hg', hgd⟩ := h3 e' he'
        rcases List.mem_append.mp hg' with hg' | hg'
        · exact ⟨g', by rw [heq]; exact List.mem_append_left _ hg', hgd⟩
        · rcases List.mem_cons.mp hg' with heq' | hg'
          · refine ⟨⟨g0.date, g0.count + 1, g0.total + e.amount⟩, ?_, heq' ▸ hgd⟩
            rw [heq]
            exact List.mem_append_right _ (List.mem_cons_self _ _)
          · exact ⟨g', by rw [heq]; exact List.mem_append_right _ (List.mem_cons_of_mem _ hg'),
              hgd⟩
      · have heq2 : e' = e := by simpa using he'
        refine ⟨⟨g0.date, g0.count + 1, g0.total + e.amount⟩, ?_, by rw [heq2]; exact hg0⟩
        rw [heq]
        exact List.mem_append_right _ (List.mem_cons_self _ _)

theorem groupByDate_append_singleton (l : List Event) (e : Event) :
    groupByDate (l ++ [e]) = bumpFirst e (groupByDate l) := by
  simp [groupByDate, List.foldl_append]

/-- The grouping invariant at the end of the loop: each entry of
`feedsByDate` carries exactly the per-date count and total of the feed list,
dates are distinct, and every feed's date has an entry. -/
theorem groupByDate_inv (feeds : List Event) :
    (∀ g ∈ groupByDate feeds,
        g.total = totOf g.date feeds ∧ g.count = cntOf g.date feeds) ∧
    ((groupByDate feeds).map fun g => g.date).Nodup ∧
    (∀ e ∈ feeds, ∃ g ∈ groupByDate feeds, g.date = e.date) := by
  induction feeds using List.reverseRecOn with
  | nil => exact ⟨by simp [groupByDate], by simp [groupByDate], by simp⟩
  | append_singleton l e ih =>
    rw [groupByDate_append_singleton]
    exact bumpFirst_inv l (groupByDate l) e ih.1 ih.2.1 ih.2.2

theorem bumpFirst_total_sum (e : Event) (acc : List DayAcc) :
    ((bumpFirst e acc).map fun g => g.total).sum =
      ((acc.map fun g => g.total).sum) + e.amount := by
  induction acc with
  | nil => simp [bumpFirst]
  | cons g gs ih =>
    by_cases hd : g.date = e.date
    · simp [bumpFirst, hd]
      omega
    · simp [bumpFirst, hd, ih]
      omega

/-- Conservation: the grouped totals sum to the total of all amounts. -/
theorem groupByDate_total_sum (feeds : List Event) :
    ((groupByDate feeds).map fun g => g.total).sum =
      (feeds.map fun e => e.amount).sum := by
  induction feeds using List.reverseRecOn with
  | nil => rfl
  | append_singleton l e ih =>
    rw [groupByDate_append_singleton, bumpFirst_total_sum]
    simp [ih]

theorem bumpFirst_bounds (e : Event) (he : 0 < e.amount) (acc : List DayAcc)
    (hacc : ∀ g ∈ acc, 0 < g.count ∧ g.count ≤ g.total) :
    ∀ g ∈ bumpFirst e acc, 0 < g.count ∧ g.count ≤ g.total := by
  induction acc with
  | nil =>
    intro g hg
    have : g = ⟨e.date, 1, e.amount⟩ := by simpa [bumpFirst] using hg
    subst this
    exact ⟨Nat.one_pos, he⟩
  | cons b gs ih =>
    intro g hg
    by_cases hd : b.date = e.date
    · rw [bumpFirst, if_pos hd] at hg
      rcases List.mem_cons.mp hg with rfl | hg
      · have hb := hacc b (List.mem_cons_self _ _)
        constructor
        · show 0 < b.count + 1
          omega
        · show b.count + 1 ≤ b.total + e.amount
          omega
      · exact hacc g (List.mem_cons_of_mem _ hg)
    · rw [bumpFirst, if_neg hd] at hg
      rcases List.mem_cons.mp hg with rfl | hg
      · exact hacc g (List.mem_cons_self _ _)
      · exact ih (fun g' hg' => hacc g' (List.mem_cons_of_mem _ hg')) g hg

theorem groupByDate_bounds (feeds : List Event) (hf : ∀ e ∈ feeds, 0 < e.amount) :
    ∀ g ∈ groupByDate feeds, 0 < g.count ∧ g.count ≤ g.total := by
  induction feeds using List.reverseRecOn with
  | nil => simp [groupByDate]
  | append_singleton l e ih =>
    rw [groupByDate_append_singleton]
    exact bumpFirst_bounds e (hf e (by simp))
      (groupByDate l) (ih fun e' he' => hf e' (List.mem_append_left _ he'))

/-! ## Claim theorems: conservation of amounts -/

/-- **C5.**  For every accepted input, the `DailyStat` totals sum to the sum
of all event amounts; each `DailyStat` holds exactly the sum of the amounts
and the number of the events of its date, and its average is
`round1(totalAmount / feedCount)`. -/
theorem claim5_amount_conservation (csv : List Char) (r : AnalysisResult)
    (h : analyzeBottleFeeds csv = Except.ok r) :
    ((r.allStats.map fun s => s.totalAmount).sum =
      (r.rawFeeds.map fun e => e.amount).sum) ∧
    ∀ s ∈ r.allStats,
      s.totalAmount =
        ((r.rawFeeds.filter fun e => decide (e.date = s.date)).map fun e => e.amount).sum ∧
      s.feedCount = (r.rawFeeds.filter fun e => decide (e.date = s.date)).length ∧
      s.averageAmount = round1 ((s.totalAmount : ℚ) / (s.feedCount : ℚ)) := by
  obtain ⟨ti, si, li, ei, -, rfl⟩ := analyze_ok_inv csv r h
  constructor
  · show ((stableSort statLe ((groupByDate _).map mkDailyStat)).map
        fun s => s.totalAmount).sum = _
    rw [((stableSort_perm statLe _).map fun s => s.totalAmount).sum_eq, List.map_map]
    exact groupByDate_total_sum _
  · intro s hs
    have hs' : s ∈ stableSort statLe ((groupByDate (stableSort feedLe
        (((splitOnChar '\n' csv).drop 1).filterMap (rowToEvent ti si li ei)))).map
          mkDailyStat) := hs
    rw [mem_stableSort] at hs'
    obtain ⟨g, hgmem, rfl⟩ := List.mem_map.mp hs'
    have hinv := (groupByDate_inv _).1 g hgmem
    exact ⟨hinv.1, hinv.2, rfl⟩

/-- **C5 witness**: conservation at the Scenario A input. -/
theorem claim5_amount_conservation_witness :
    (resA.allStats.map fun s => s.totalAmount).sum =
      (resA.rawFeeds.map fun e => e.amount).sum :=
  (claim5_amount_conservation csvA resA (by with_unfolding_all decide)).1

/-! ## Claim theorems: the recent trend is always finite -/

theorem round1_ge_one (x : ℚ) (hx : 1 ≤ x) : 1 ≤ round1 x := by
  rw [round1, jsRound]
  have h10 : (10 : ℤ) ≤ Rat.floor (x * 10 + 1 / 2) := by
    rw [Rat.le_floor]
    push_cast
    linarith
  have h10' : ((10 : ℤ) : ℚ) ≤ ((Rat.floor (x * 10 + 1 / 2) : ℤ) : ℚ) := by
    exact_mod_cast h10
  rw [le_div_iff₀ (by norm_num : (0 : ℚ) < 10)]
  push_cast at h10' ⊢
  linarith

theorem sumAvg_ge_length (l : List DailyStat) (h : ∀ s ∈ l, 1 ≤ s.averageAmount) :
    (l.length : ℚ) ≤ sumAvg l := by
  induction l with
  | nil => simp [sumAvg]
  | cons s t ih =>
    have hs := h s (List.mem_cons_self _ _)
    have ht := ih fun s' hs' => h s' (List.mem_cons_of_mem _ hs')
    have hgoal : sumAvg (s :: t) = s.averageAmount + sumAvg t := by simp [sumAvg]
    rw [hgoal, List.length_cons]
    push_cast
    linarith

/-- The single-trend computation on statistics whose averages are all `≥ 1`
(which every reachable `allStats` satisfies): below 14 entries there is no
trend, and otherwise the unrounded older average is at least 1, so the
rounded `olderAverage` is nonzero and `percentChange` is a finite value. -/
theorem recentTrendOf_spec (stats : List DailyStat)
    (havg : ∀ s ∈ stats, 1 ≤ s.averageAmount) :
    (stats.length < 14 → recentTrendOf stats = none) ∧
    (∀ t, recentTrendOf stats = some t →
      t.olderAverage ≠ 0 ∧ t.percentChange.isSome = true) := by
  constructor
  · intro hlt
    rw [recentTrendOf, if_neg (by omega)]
  · intro t ht
    rw [recentTrendOf] at ht
    split at ht
    · next hge =>
      rw [Option.some.injEq] at ht
      have hlen7 : ((stats.drop (stats.length - 14)).take 7).length = 7 := by
        simp only [List.length_take, List.length_drop]
        omega
      have hmem7 : ∀ s ∈ (stats.drop (stats.length - 14)).take 7, 1 ≤ s.averageAmount :=
        fun s hs => havg s (List.mem_of_mem_drop (List.mem_of_mem_take hs))
      have hsum := sumAvg_ge_length _ hmem7
      rw [hlen7] at hsum
      have holder : 1 ≤ sumAvg ((stats.drop (stats.length - 14)).take 7) /
          ((((stats.drop (stats.length - 14)).take 7).length : ℕ) : ℚ) := by
        rw [hlen7, le_div_iff₀ (by norm_num : (0 : ℚ) < ((7 : ℕ) : ℚ))]
        push_cast at hsum ⊢
        linarith
      have hone := round1_ge_one _ holder
      have hnz : sumAvg ((stats.drop (stats.length - 14)).take 7) /
          ((((stats.drop (stats.length - 14)).take 7).length : ℕ) : ℚ) ≠ 0 := by
        intro h0
        rw [h0] at holder
        linarith
      constructor
      · rw [← ht]
        show round1 (sumAvg ((stats.drop (stats.length - 14)).take 7) /
          ((((stats.drop (stats.length - 14)).take 7).length : ℕ) : ℚ)) ≠ 0
        intro h0
        rw [h0] at hone
        linarith
      · rw [← ht]
        show (pctChange _ (sumAvg ((stats.drop (stats.length - 14)).take 7) /
          ((((stats.drop (stats.length - 14)).take 7).length : ℕ) : ℚ))).isSome = true
        rw [pctChange, jsDiv, if_neg hnz]
        rfl
    · cases ht

/-- **C1.**  For every accepted input, `recentTrend` is `null` when fewer
than 14 `DailyStat`s exist, and whenever it is present its `olderAverage` is
nonzero and its `percentChange` is a finite value — the division-by-zero
case of the spec is unreachable, because every event amount is positive, so
every daily average (and hence every 7-day mean used as divisor) is at
least 1. -/
theorem claim1_no_nonfinite_trend (csv : List Char) (r : AnalysisResult)
    (h : analyzeBottleFeeds csv = Except.ok r) :
    (r.allStats.length < 14 → r.recentTrend = none) ∧
    (∀ t, r.recentTrend = some t →
      t.olderAverage ≠ 0 ∧ t.percentChange.isSome = true) := by
  obtain ⟨ti, si, li, ei, -, rfl⟩ := analyze_ok_inv csv r h
  have hfe : ∀ e ∈ stableSort feedLe
      (((splitOnChar '\n' csv).drop 1).filterMap (rowToEvent ti si li ei)), 0 < e.amount := by
    intro e he
    rw [mem_stableSort] at he
    obtain ⟨line, -, hline⟩ := List.mem_filterMap.mp he
    exact (rowToEvent_some_inv ti si li ei line e hline).1
  have hbounds := groupByDate_bounds _ hfe
  have havg : ∀ s ∈ (buildResult
      (((splitOnChar '\n' csv).drop 1).filterMap (rowToEvent ti si li ei))).allStats,
      1 ≤ s.averageAmount := by
    intro s hs
    have hs' : s ∈ stableSort statLe ((groupByDate (stableSort feedLe
        (((splitOnChar '\n' csv).drop 1).filterMap (rowToEvent ti si li ei)))).map
          mkDailyStat) := hs
    rw [mem_stableSort] at hs'
    obtain ⟨g, hgmem, rfl⟩ := List.mem_map.mp hs'
    have hb := hbounds g hgmem
    show 1 ≤ round1 ((g.total : ℚ) / (g.count : ℚ))
    apply round1_ge_one
    rw [le_div_iff₀ (by exact_mod_cast hb.1 : (0 : ℚ) < (g.count : ℚ))]
    rw [one_mul]
    exact_mod_cast hb.2
  have hdef : (buildResult
      (((splitOnChar '\n' csv).drop 1).filterMap (rowToEvent ti si li ei))).recentTrend =
      recentTrendOf ((buildResult
        (((splitOnChar '\n' csv).drop 1).filterMap (rowToEvent ti si li ei))).allStats) := rfl
  rw [hdef]
  exact recentTrendOf_spec _ havg

set_option maxRecDepth 100000 in
/-- **C1 witness** at the 14-day input: the trend is present, with a nonzero
`olderAverage` and a finite `percentChange`. -/
theorem claim1_no_nonfinite_trend_witness :
    tp14.olderAverage ≠ 0 ∧ tp14.percentChange.isSome = true :=
  (claim1_no_nonfinite_trend csv14 res14 (by with_unfolding_all decide)).2 tp14
    (by with_unfolding_all decide)

/-! ## Claim theorems: time-of-day buckets -/

theorem slotCounts_foldl (k : Fin 4) (feeds : List Event) :
    ∀ p : Nat × Nat,
      feeds.foldl
        (fun p e => if slotIndex e.hour = k then (p.1 + 1, p.2 + e.amount) else p) p =
      (p.1 + (feeds.countP fun e => decide (slotIndex e.hour = k)),
       p.2 + ((feeds.filter fun e => decide (slotIndex e.hour = k)).map
         fun e => e.amount).sum) := by
  induction feeds with
  | nil => intro p; simp
  | cons e t ih =>
    intro p
    by_cases hk : slotIndex e.hour = k
    · rw [List.foldl_cons, if_pos hk, ih]
      refine Prod.ext ?_ ?_ <;> simp [List.countP_cons, List.filter_cons, hk] <;> omega
    · rw [List.foldl_cons, if_neg hk, ih]
      refine Prod.ext ?_ ?_ <;> simp [List.countP_cons, List.filter_cons, hk]

theorem slotCounts_fst (feeds : List Event) (k : Fin 4) :
    (slotCounts feeds k).1 = feeds.countP fun e => decide (slotIndex e.hour = k) := by
  rw [slotCounts, slotCounts_foldl]
  simp

theorem countP_slots_sum (feeds : List Event) :
    (([(0 : Fin 4), 1, 2, 3].map fun k =>
        feeds.countP fun e => decide (slotIndex e.hour = k)).sum) = feeds.length := by
  induction feeds with
  | nil => simp
  | cons e t ih =>
    simp only [List.map_cons, List.map_nil, List.sum_cons, List.sum_nil,
      List.countP_cons, List.length_cons] at ih ⊢
    rcases (by decide : ∀ k : Fin 4, k = 0 ∨ k = 1 ∨ k = 2 ∨ k = 3) (slotIndex e.hour)
      with hk | hk | hk | hk <;> simp [hk] <;> omega

/-- `Math.round(x * 1000) / 10` is `round1(x * 100)`. -/
theorem round1_thousand (c len : ℚ) :
    (jsRound (c / len * 1000) : ℚ) / 10 = round1 (c / len * 100) := by
  rw [round1]
  have harg : c / len * 100 * 10 = c / len * 1000 := by ring
  rw [harg]

/-- **C7.**  For every accepted input, `timeStats` has the four fixed
buckets; the `if/else` chain sends each event to exactly one bucket; the
bucket counts sum to the total event count (no event dropped); and each
bucket's percentage is `round1(count / total * 100)`. -/
theorem claim7_bucket_partition (csv : List Char) (r : AnalysisResult)
    (h : analyzeBottleFeeds csv = Except.ok r) :
    r.timeStats.length = 4 ∧
    (∀ e ∈ r.rawFeeds, ∃! k : Fin 4, slotIndex e.hour = k) ∧
    ((r.timeStats.map fun ts => ts.count).sum = r.rawFeeds.length) ∧
    (∀ ts ∈ r.timeStats, ts.percentage =
      round1 ((ts.count : ℚ) / (r.rawFeeds.length : ℚ) * 100)) := by
  obtain ⟨ti, si, li, ei, -, rfl⟩ := analyze_ok_inv csv r h
  refine ⟨rfl, ?_, ?_, ?_⟩
  · intro e _
    exact ⟨slotIndex e.hour, rfl, fun y hy => hy.symm⟩
  · show (((List.finRange 4).map (mkTimeSlotStat (stableSort feedLe
        (((splitOnChar '\n' csv).drop 1).filterMap (rowToEvent ti si li ei))))).map
          fun ts => ts.count).sum = _
    rw [List.map_map]
    have h1 : ((fun ts => ts.count) ∘ mkTimeSlotStat (stableSort feedLe
        (((splitOnChar '\n' csv).drop 1).filterMap (rowToEvent ti si li ei)))) =
        fun k => (slotCounts (stableSort feedLe
          (((splitOnChar '\n' csv).drop 1).filterMap (rowToEvent ti si li ei))) k).1 := rfl
    rw [h1]
    have h2 : (fun k : Fin 4 => (slotCounts (stableSort feedLe
        (((splitOnChar '\n' csv).drop 1).filterMap (rowToEvent ti si li ei))) k).1) =
        fun k : Fin 4 => (stableSort feedLe
          (((splitOnChar '\n' csv).drop 1).filterMap (rowToEvent ti si li ei))).countP
            fun e => decide (slotIndex e.hour = k) :=
      funext fun k => slotCounts_fst _ k
    rw [h2]
    have h3 : List.finRange 4 = [(0 : Fin 4), 1, 2, 3] := rfl
    rw [h3, countP_slots_sum]
    rfl
  · intro ts hts
    obtain ⟨k, -, rfl⟩ := List.mem_map.mp hts
    exact round1_thousand _ _

/-- **C7 witness**: the bucket counts of the Scenario A analysis sum to its
event count. -/
theorem claim7_bucket_partition_witness :
    (resA.timeStats.map fun ts => ts.count).sum = resA.rawFeeds.length :=
  (claim7_bucket_partition csvA resA (by with_unfolding_all decide)).2.2.1

/-! ## Claim theorems: trend history -/

theorem filterMap_range'_eq_map {α : Type} (f : Nat → Option α) (g : Nat → α) :
    ∀ (n s : Nat), (∀ i, s ≤ i → i < s + n → f i = some (g i)) →
      (List.range' s n).filterMap f = (List.range' s n).map g := by
  intro n
  induction n with
  | zero => intro s _; rfl
  | succ m ih =>
    intro s h
    rw [List.range'_succ, List.filterMap_cons, h s (Nat.le_refl s) (by omega),
      List.map_cons, ih (s + 1) fun i h1 h2 => h i (by omega) (by omega)]

/-- In the index range the loop actually visits, both windows are full
(7 entries each) and the guard always passes. -/
theorem trendEntryAt_isSome (sorted : List DailyStat) (i : Nat)
    (h13 : 13 ≤ i) (hlt : i < sorted.length) :
    trendEntryAt sorted i = some
      { date := (sorted.getD i default).date,
        value := pctChange (sumAvg ((sorted.drop (i - 6)).take 7) / 7)
                           (sumAvg ((sorted.drop (i - 13)).take 7) / 7),
        recentAvg := round1 (sumAvg ((sorted.drop (i - 6)).take 7) / 7),
        olderAvg := round1 (sumAvg ((sorted.drop (i - 13)).take 7) / 7) } := by
  rw [trendEntryAt]
  have htake1 : i + 1 - (i - 6) = 7 := by omega
  have htake2 : i - 6 - (i - 13) = 7 := by omega
  rw [htake1, htake2]
  have hlen1 : ((sorted.drop (i - 6)).take 7).length = 7 := by
    simp only [List.length_take, List.length_drop]
    omega
  have hlen2 : ((sorted.drop (i - 13)).take 7).length = 7 := by
    simp only [List.length_take, List.length_drop]
    omega
  rw [if_pos ⟨by omega, by omega⟩]
  rw [hlen1, hlen2]
  norm_num

/-- **C3.**  The trend history is empty below 14 entries and has exactly
`len - 13` entries otherwise; when the input is already sorted ascending by
date (as `allStats` always is), entry `j` is anchored to the date of index
`13 + j` and compares the mean `averageAmount` of entries `7+j .. 13+j`
(the trailing seven) against that of entries `j .. 6+j` (the seven before
those). -/
theorem claim3_trend_history (stats : List DailyStat) :
    (stats.length < 14 → calculateDailyTrends stats = []) ∧
    (14 ≤ stats.length → (calculateDailyTrends stats).length = stats.length - 13) ∧
    (stats.Pairwise (fun a b => statLe a b = true) → 14 ≤ stats.length →
      ∀ j, j < stats.length - 13 →
        (calculateDailyTrends stats).getD j default =
          { date := (stats.getD (13 + j) default).date,
            value := pctChange (sumAvg ((stats.drop (7 + j)).take 7) / 7)
                               (sumAvg ((stats.drop j).take 7) / 7),
            recentAvg := round1 (sumAvg ((stats.drop (7 + j)).take 7) / 7),
            olderAvg := round1 (sumAvg ((stats.drop j).take 7) / 7) }) := by
  refine ⟨?_, ?_, ?_⟩
  · intro hlt
    rw [calculateDailyTrends, if_pos hlt]
  · intro hge
    rw [calculateDailyTrends, if_neg (by omega)]
    have hslen : (stableSort statLe stats).length = stats.length := length_stableSort _ _
    rw [filterMap_range'_eq_map (trendEntryAt (stableSort statLe stats))
      (fun i => { date := ((stableSort statLe stats).getD i default).date,
                  value := pctChange
                    (sumAvg (((stableSort statLe stats).drop (i - 6)).take 7) / 7)
                    (sumAvg (((stableSort statLe stats).drop (i - 13)).take 7) / 7),
                  recentAvg :=
                    round1 (sumAvg (((stableSort statLe stats).drop (i - 6)).take 7) / 7),
                  olderAvg :=
                    round1 (sumAvg (((stableSort statLe stats).drop (i - 13)).take 7) / 7) })
      ((stableSort statLe stats).length - 13) 13
      (fun i h1 h2 => trendEntryAt_isSome _ i h1 (by omega))]
    rw [List.length_map, List.length_range', hslen]
  · intro hs hge j hj
    have hsorted : stableSort statLe stats = stats := stableSort_eq_self statLe stats hs
    rw [calculateDailyTrends, if_neg (by omega), hsorted]
    rw [filterMap_range'_eq_map (trendEntryAt stats)
      (fun i => { date := (stats.getD i default).date,
                  value := pctChange (sumAvg ((stats.drop (i - 6)).take 7) / 7)
                                     (sumAvg ((stats.drop (i - 13)).take 7) / 7),
                  recentAvg := round1 (sumAvg ((stats.drop (i - 6)).take 7) / 7),
                  olderAvg := round1 (sumAvg ((stats.drop (i - 13)).take 7) / 7) })
      (stats.length - 13) 13
      (fun i h1 h2 => trendEntryAt_isSome stats i h1 (by omega))]
    have hjlen : j < ((List.range' 13 (stats.length - 13)).map
        (fun i => ({ date := (stats.getD i default).date,
                     value := pctChange (sumAvg ((stats.drop (i - 6)).take 7) / 7)
                                        (sumAvg ((stats.drop (i - 13)).take 7) / 7),
                     recentAvg := round1 (sumAvg ((stats.drop (i - 6)).take 7) / 7),
                     olderAvg := round1 (sumAvg ((stats.drop (i - 13)).take 7) / 7) } :
                    TrendHistoryEntry))).length := by
      rw [List.length_map, List.length_range']
      omega
    rw [List.getD_eq_getElem _ _ hjlen, List.getElem_map, List.getElem_range']
    have h1 : 13 + 1 * j = 13 + j := by omega
    rw [h1]
    have h2 : 13 + j - 6 = 7 + j := by omega
    have h3 : 13 + j - 13 = j := by omega
    rw [h2, h3]

/-- **C3 witness** at the 14-day constant sequence `stats14`. -/
theorem claim3_trend_history_witness :
    (calculateDailyTrends stats14).length = stats14.length - 13 ∧
    (calculateDailyTrends stats14).getD 0 default =
      { date := (stats14.getD 13 default).date,
        value := pctChange (sumAvg ((stats14.drop 7).take 7) / 7)
                           (sumAvg ((stats14.drop 0).take 7) / 7),
        recentAvg := round1 (sumAvg ((stats14.drop 7).take 7) / 7),
        olderAvg := round1 (sumAvg ((stats14.drop 0).take 7) / 7) } :=
  ⟨(claim3_trend_history stats14).2.1 (by decide),
   by
    have h0 := (claim3_trend_history stats14).2.2 (by decide) (by decide) 0 (by decide)
    simpa using h0⟩

/-! ## Claim theorems: no mutation of the caller's array -/

/-- **C10.**  Computing the trend history never mutates the `allStats` array
it is given: in the heap model, after the call the caller's cell is
unchanged (the `slice()` copy is the only array `sort` mutates), and the
returned history is exactly `calculateDailyTrends` of the argument. -/
theorem claim10_no_mutation (h : Heap) (r : Nat) (hr : r < h.arrays.length) :
    ((calculateDailyTrendsH h r).1.read r = h.read r) ∧
    ((calculateDailyTrendsH h r).2 = calculateDailyTrends (h.read r)) := by
  by_cases hlt : (h.read r).length < 14
  · simp only [calculateDailyTrendsH]
    rw [if_pos hlt]
    exact ⟨rfl, by rw [calculateDailyTrends, if_pos hlt]⟩
  · simp only [calculateDailyTrendsH]
    rw [if_neg hlt]
    have hread1 : (((Heap.alloc h (h.read r)).1).read (Heap.alloc h (h.read r)).2) =
        h.read r := by
      simp only [Heap.alloc, Heap.read, List.getD_eq_getElem?_getD,
        List.getElem?_concat_length]
      rfl
    have hww : (((Heap.alloc h (h.read r)).1.write (Heap.alloc h (h.read r)).2
        (stableSort statLe (h.read r))).read (Heap.alloc h (h.read r)).2) =
        stableSort statLe (h.read r) := by
      simp only [Heap.alloc, Heap.write, Heap.read, List.getD_eq_getElem?_getD]
      rw [List.getElem?_set_self
        (by simp only [List.length_append, List.length_cons, List.length_nil]; omega)]
      rfl
    constructor
    · show (((h.arrays ++ [h.read r]).set h.arrays.length _).getD r []) = h.read r
      rw [List.getD_eq_getElem?_getD,
        List.getElem?_set_ne (by omega : h.arrays.length ≠ r),
        List.getElem?_append_left hr]
      simp [Heap.read]
    · rw [hread1, hww]
      rw [calculateDailyTrends, if_neg hlt]

/-- A one-cell heap for the frame-property witness. -/
def heap14 : Heap := ⟨[stats14]⟩

/-- **C10 witness** on a heap holding the 14-day sequence. -/
theorem claim10_no_mutation_witness :
    ((calculateDailyTrendsH heap14 0).1.read 0 = heap14.read 0) ∧
    ((calculateDailyTrendsH heap14 0).2 = calculateDailyTrends (heap14.read 0)) :=
  claim10_no_mutation heap14 0 (by decide)

end BottleTracker
